import Mathlib

/-!
Shallow embedding of the `walletprovider-ts` repository: the `WalletProvider`
contract (`src/unnamed/part_000`) and its sole implementation
`BitcoinCoreWallet` (`src/src/providers/bitcoin_core_wallet.ts`).

Methods that call the Bitcoin Core JSON-RPC client are embedded as functions
taking the client's behaviour as an explicit argument (a function or a
precomputed response); JSON numbers are modelled as exact rationals.
-/

namespace WalletProviderTs

/-- The `Network` enumeration from the wallet-provider contract
(`src/unnamed/part_000`, lines 15-20). -/
inductive Network where
  | MAINNET
  | TESTNET
  | SIGNET
  | RETEST
deriving DecidableEq, Repr

/-- The `Fees` record from the wallet-provider contract. All fields are
satoshis-per-byte rates. -/
structure Fees where
  fastestFee : ℚ
  halfHourFee : ℚ
  hourFee : ℚ
  economyFee : ℚ
  minimumFee : ℚ
deriving DecidableEq, Repr

/-- The `UTXO` shape actually produced by `BitcoinCoreWallet.getUtxos`
(`txid`, `vout`, `value` in satoshis, `scriptPubKey`). -/
structure UTXO where
  txid : String
  vout : Nat
  value : ℚ
  scriptPubKey : String
deriving DecidableEq, Repr

/-- One entry of the node's `listUnspent` RPC response: `amount` is quoted in
whole coins (BTC). -/
structure RawUtxo where
  txid : String
  vout : Nat
  amount : ℚ
  scriptPubKey : String
deriving DecidableEq, Repr

/-- Embeds `convertBtcKvBToSatoshiPerByte` (bitcoin_core_wallet.ts lines 17-21):
`btcPerKvB * 100000000 / 1000`. -/
def convertBtcKvBToSatoshiPerByte (btcPerKvB : ℚ) : ℚ :=
  let satoshiPerKB := btcPerKvB * 100000000
  let satoshiPerByte := satoshiPerKB / 1000
  satoshiPerByte

/-- Embeds `getNetworkFees` (lines 183-193), as a function of the node's
`estimateSmartFee(6).feerate` response. -/
def getNetworkFees (feerate : ℚ) : Fees :=
  let satoshis := convertBtcKvBToSatoshiPerByte feerate
  { fastestFee := 1000
    halfHourFee := satoshis
    hourFee := satoshis
    economyFee := satoshis
    minimumFee := satoshis }

/-- The adapter's constructor configuration (lines 26-37): the connection
descriptor fields stored when the RPC client is built. -/
structure BitcoinCoreWallet where
  walletName : String
  host : String
  port : Nat
  username : String
  password : String
  network : String
deriving DecidableEq, Repr

/-- Embeds `getNetwork` (lines 63-65): `return Network.RETEST;` — a constant,
ignoring the configured network string. -/
def BitcoinCoreWallet.getNetwork (_w : BitcoinCoreWallet) : Network :=
  Network.RETEST

/-- The per-output conversion inside `getUtxos` (lines 209-214):
`value: utxo.amount * 1e8`, other fields copied. -/
def convertUtxo (u : RawUtxo) : UTXO :=
  { txid := u.txid
    vout := u.vout
    value := u.amount * 100000000
    scriptPubKey := u.scriptPubKey }

/-- The accumulation loop of `getUtxos` (lines 217-223):
`totalAmount += utxo.value; result.push(utxo); if (totalAmount >= amount) break;`
returning the final `(totalAmount, result)` pair. -/
def selectLoop (amount : ℚ) : ℚ → List UTXO → List UTXO → ℚ × List UTXO
  | totalAmount, result, [] => (totalAmount, result)
  | totalAmount, result, utxo :: rest =>
    let totalAmount' := totalAmount + utxo.value
    let result' := result ++ [utxo]
    if amount ≤ totalAmount' then (totalAmount', result')
    else selectLoop amount totalAmount' result' rest

/-- Embeds `getUtxos` (lines 206-228). The client's `listUnspent` is passed as a
function of `(minconf, maxconf, address)`; the JS guard `if (amount)` is
truthiness, so `amount = 0` behaves like an absent amount. -/
def getUtxos (listUnspent : Nat → Nat → String → List RawUtxo)
    (address : String) (amount : Option ℚ) : List UTXO :=
  let utxos := listUnspent 0 9999999 address
  let filteredUtxos := utxos.map convertUtxo
  match amount with
  | some a =>
    if a = 0 then filteredUtxos
    else
      let p := selectLoop a 0 [] filteredUtxos
      if a ≤ p.1 then p.2 else []
  | none => filteredUtxos

/-- The full converted UTXO list `getUtxos` works on: the `listUnspent`
response at `minconf = 0`, `maxconf = 9999999`, mapped through the
satoshi conversion. -/
def fullUtxoList (listUnspent : Nat → Nat → String → List RawUtxo)
    (address : String) : List UTXO :=
  (listUnspent 0 9999999 address).map convertUtxo

/-- Cumulative `value` of a list of UTXOs. -/
def sumValues (l : List UTXO) : ℚ :=
  (l.map UTXO.value).sum

/-- The node's `walletProcessPsbt` RPC response: the processed PSBT (base64)
and the completeness flag. -/
structure ProcessPsbtResult where
  psbt : String
  complete : Bool
deriving DecidableEq, Repr

/-- Embeds `signPsbt` (lines 154-164). The client call is the function
`walletProcessPsbt` (which may fail, modelled with `Except`); `hexToBase64`
and `base64ToHex` stand for the two `Buffer` re-encodings. The
`if (!signedPsbt.complete) console.error(...)` branch only logs: the result
is returned unconditionally. -/
def signPsbt (walletProcessPsbt : String → Except String ProcessPsbtResult)
    (hexToBase64 base64ToHex : String → String) (psbtHex : String) :
    Except String String :=
  match walletProcessPsbt (hexToBase64 psbtHex) with
  | .error e => .error e
  | .ok signedPsbt => .ok (base64ToHex signedPsbt.psbt)

/-- Embeds `signPsbts` (lines 167-174): a sequential loop over the hexes, signing one
at a time and pushing into `signedPsbts`; any failure aborts the loop and
propagates, discarding the accumulated results. -/
def signPsbts (walletProcessPsbt : String → Except String ProcessPsbtResult)
    (hexToBase64 base64ToHex : String → String) :
    List String → Except String (List String)
  | [] => .ok []
  | psbtHex :: rest =>
    match signPsbt walletProcessPsbt hexToBase64 base64ToHex psbtHex with
    | .error e => .error e
    | .ok signedPsbt =>
      match signPsbts walletProcessPsbt hexToBase64 base64ToHex rest with
      | .error e => .error e
      | .ok signedRest => .ok (signedPsbt :: signedRest)

/-- The node's `getWalletInfo` response (the fields `connectWallet` logs). -/
structure WalletInfoResp where
  walletname : String
  balance : ℚ
deriving DecidableEq, Repr

/-- What a `connectWallet` call can resolve with: the adapter instance itself
(a self-handle, what the contract's `Promise<this>` promises) or the node's
wallet-info object (what the implementation actually returns). -/
inductive ConnectResult where
  | selfHandle
  | walletInfo (w : WalletInfoResp)
deriving DecidableEq, Repr

/-- Embeds `connectWallet` (lines 50-61): on success it returns the `getWalletInfo`
response (`return walletInfo;` — the `return this;` line is commented out);
on failure it throws a wrapped connection error. -/
def connectWallet (getWalletInfo : Except String WalletInfoResp) :
    Except String ConnectResult :=
  match getWalletInfo with
  | .ok walletInfo => .ok (.walletInfo walletInfo)
  | .error e => .error ("Failed to connect to Bitcoin Core: " ++ e)

/-- One entry of the node's `listReceivedByAddress` response. -/
structure ReceivedEntry where
  address : String
  label : String
  amount : ℚ
deriving DecidableEq, Repr

/-- Embeds `getAddress` (lines 75-87) as a function of the node responses:
`listReceivedByAddress` is called with NO arguments (no label filter), and
the guard is `addresses.length > 0 && addresses[0].address` (a truthy, i.e.
non-empty, address string); otherwise `getNewAddress(label, 'bech32')` is
called with `label = "primary"`. -/
def getAddress (listReceivedByAddress : List ReceivedEntry)
    (getNewAddress : String → String → String) : String :=
  let label := "primary"
  match listReceivedByAddress.head? with
  | some first => if first.address = "" then getNewAddress label "bech32" else first.address
  | none => getNewAddress label "bech32"

/-- Modelled from the spec: the backend wallet state behind the two RPCs
`getAddress` uses. §6 describes the RPC node boundary (address
listing/creation); §4.2 says the lookup is "among addresses that have
received funds" and that the fallback "creates ... a NEW receiving address".
So `listReceivedByAddress()` returns the stable list of funded addresses,
and each `getNewAddress` call hands out a fresh, previously unseen address
(which has received nothing, so the funded list is unchanged). -/
structure NodeState where
  received : List ReceivedEntry
  nextFresh : Nat
deriving DecidableEq, Repr

/-- Modelled from the spec: the fresh address the node's keypool hands out at
counter value `n`; distinct counters give distinct addresses. -/
def freshAddress (n : Nat) : String :=
  "bcrt1q" ++ toString n

/-- Modelled from the spec: the node's `getNewAddress` RPC — returns a fresh
address and advances the keypool counter; no funding happens, so `received`
is unchanged. -/
def nodeGetNewAddress (s : NodeState) : String × NodeState :=
  (freshAddress s.nextFresh, { s with nextFresh := s.nextFresh + 1 })

/-- Embeds `getAddress` (lines 75-87) run against the node-state model: returns the
address and the node state after the call. -/
def getAddressState (s : NodeState) : String × NodeState :=
  match s.received.head? with
  | some first =>
    if first.address = "" then nodeGetNewAddress s else (first.address, s)
  | none => nodeGetNewAddress s

/-- The `listReceivedByAddress()` response exhibiting the label defect of
`getAddress`: the first funded address carries a different label, while a
"primary"-labelled funded address sits later in the list. -/
def c4Received : List ReceivedEntry :=
  [⟨"bcrt1qfirst", "watch", 1⟩, ⟨"bcrt1qlabelled", "primary", 2⟩]

/-!  Theorems settling the claims. -/

/-- C5: `getNetworkFees` converts the node's single 6-block estimate via
`satoshisPerByte = feeRate * 1e8 / 1000` (so native rate `0.00001000 = 1/100000`
yields `1`), populates `halfHourFee`, `hourFee`, `economyFee` and `minimumFee`
with this same converted value, and hardcodes `fastestFee = 1000`. -/
theorem getNetworkFees_tiers_and_conversion :
    (∀ feerate : ℚ,
      (getNetworkFees feerate).halfHourFee = feerate * 100000000 / 1000 ∧
      (getNetworkFees feerate).hourFee = feerate * 100000000 / 1000 ∧
      (getNetworkFees feerate).economyFee = feerate * 100000000 / 1000 ∧
      (getNetworkFees feerate).minimumFee = feerate * 100000000 / 1000 ∧
      (getNetworkFees feerate).fastestFee = 1000) ∧
    convertBtcKvBToSatoshiPerByte (1 / 100000) = 1 := by
  refine ⟨fun feerate => ⟨rfl, rfl, rfl, rfl, rfl⟩, ?_⟩
  norm_num [convertBtcKvBToSatoshiPerByte]

/-- C10: `getNetwork` returns the constant `Network.RETEST` (regtest) for
every adapter configuration — even one constructed with network "mainnet". -/
theorem getNetwork_always_regtest :
    (∀ w : BitcoinCoreWallet, w.getNetwork = Network.RETEST) ∧
    (BitcoinCoreWallet.mk "wallet" "127.0.0.1" 18443 "user" "pass"
      "mainnet").getNetwork = Network.RETEST :=
  ⟨fun _ => rfl, rfl⟩

/-- C6: `getUtxos(address)` with no target amount returns every unspent output
the backend lists for the address — queried at `minconf = 0`,
`maxconf = 9999999` — each converted by `value = amount * 1e8` with the other
fields copied; raw amount `0.0005 = 1/2000` converts to `50000` satoshis. -/
theorem getUtxos_no_amount_returns_all_converted :
    (∀ (listUnspent : Nat → Nat → String → List RawUtxo) (address : String),
      getUtxos listUnspent address none =
        (listUnspent 0 9999999 address).map convertUtxo) ∧
    (∀ u : RawUtxo,
      (convertUtxo u).txid = u.txid ∧
      (convertUtxo u).vout = u.vout ∧
      (convertUtxo u).scriptPubKey = u.scriptPubKey ∧
      (convertUtxo u).value = u.amount * 100000000) ∧
    (convertUtxo ⟨"txid0", 0, 1 / 2000, "spk0"⟩).value = 50000 := by
  refine ⟨fun _ _ => rfl, fun u => ⟨rfl, rfl, rfl, rfl⟩, ?_⟩
  norm_num [convertUtxo]

/-- C9: the JS guard `if (amount)` tests truthiness, so `getUtxos(address, 0)`
behaves exactly like `getUtxos(address)` with no amount: it returns the full
converted UTXO list, not the empty prefix that would satisfy a zero target. -/
theorem getUtxos_zero_amount_like_absent :
    ∀ (listUnspent : Nat → Nat → String → List RawUtxo) (address : String),
      getUtxos listUnspent address (some 0) = getUtxos listUnspent address none ∧
      getUtxos listUnspent address (some 0) =
        (listUnspent 0 9999999 address).map convertUtxo := by
  intro listUnspent address
  constructor <;> simp [getUtxos]

/-- C2: when the node reports the processed PSBT as incomplete
(`complete = false`), `signPsbt` raises no error: it returns `.ok` with the
node's PSBT re-encoded to hex, so a successful return does not imply
complete signing. -/
theorem signPsbt_incomplete_logged_not_raised
    (walletProcessPsbt : String → Except String ProcessPsbtResult)
    (hexToBase64 base64ToHex : String → String) (psbtHex : String)
    (r : ProcessPsbtResult)
    (hresp : walletProcessPsbt (hexToBase64 psbtHex) = .ok r)
    (hincomplete : r.complete = false) :
    signPsbt walletProcessPsbt hexToBase64 base64ToHex psbtHex =
      .ok (base64ToHex r.psbt) := by
  unfold signPsbt
  rw [hresp]

/-- Witness for C2: a concrete node answering with an incomplete PSBT, on
which `signPsbt` still succeeds with the re-encoded blob. -/
theorem signPsbt_incomplete_logged_not_raised_witness :
    signPsbt (fun _ => .ok ⟨"cGFydGlhbA==", false⟩) id id "70736274" =
      .ok "cGFydGlhbA==" :=
  signPsbt_incomplete_logged_not_raised (fun _ => .ok ⟨"cGFydGlhbA==", false⟩)
    id id "70736274" ⟨"cGFydGlhbA==", false⟩ rfl rfl

/-- C7 (code bug): on a successful `getWalletInfo`, `connectWallet` resolves
with the wallet-info object, not with the adapter instance — the
`return this;` line is commented out — while connection failures are indeed
wrapped into a descriptive connection error. -/
theorem connectWallet_returns_wallet_info_not_self :
    connectWallet (.ok ⟨"testwallet", 1⟩) = .ok (.walletInfo ⟨"testwallet", 1⟩) ∧
    connectWallet (.ok ⟨"testwallet", 1⟩) ≠ .ok .selfHandle ∧
    connectWallet (.error "connect ECONNREFUSED") =
      .error ("Failed to connect to Bitcoin Core: " ++ "connect ECONNREFUSED") := by
  refine ⟨rfl, ?_, rfl⟩
  intro h
  exact ConnectResult.noConfusion (Except.ok.inj h)

/-- C4 (code bug): `getAddress` calls `listReceivedByAddress()` without the
label filter, so on a backend whose first funded address is labelled "watch"
it returns that address even though a "primary"-labelled funded address
exists — contradicting its own comment (and the sibling `getNewAddress`,
which does pass the label). -/
theorem getAddress_ignores_primary_label :
    getAddress c4Received (fun _ _ => "bcrt1qnew") = "bcrt1qfirst" ∧
    (∃ e ∈ c4Received, e.label = "primary") ∧
    (∀ e ∈ c4Received, e.address = "bcrt1qfirst" → e.label ≠ "primary") := by
  decide

/-- C8 (counterexample): from a backend state where no address has received
funds, two successive `getAddress` calls each create a fresh address, and the
two returned addresses differ. -/
theorem getAddress_unfunded_two_calls_differ :
    (getAddressState ⟨[], 0⟩).1 ≠
      (getAddressState (getAddressState ⟨[], 0⟩).2).1 := by
  decide

/-- C8 (amended): whenever the backend lists at least one funded address with
a non-empty address string, `getAddress` is stable — it leaves the node state
unchanged and a second successive call returns the same address. -/
theorem getAddress_stable_when_funded (s : NodeState) (first : ReceivedEntry)
    (hhead : s.received.head? = some first) (hne : first.address ≠ "") :
    (getAddressState s).1 = (getAddressState (getAddressState s).2).1 ∧
    (getAddressState s).2 = s := by
  have h1 : getAddressState s = (first.address, s) := by
    unfold getAddressState
    rw [hhead]
    simp [hne]
  refine ⟨?_, by rw [h1]⟩
  rw [h1, h1]

/-- Witness for C8's amended claim: a concrete funded backend state on which
two successive `getAddress` calls agree. -/
theorem getAddress_stable_when_funded_witness :
    (getAddressState ⟨[⟨"bcrt1qfunded", "primary", 3⟩], 0⟩).1 =
      (getAddressState
        (getAddressState ⟨[⟨"bcrt1qfunded", "primary", 3⟩], 0⟩).2).1 ∧
    (getAddressState ⟨[⟨"bcrt1qfunded", "primary", 3⟩], 0⟩).2 =
      ⟨[⟨"bcrt1qfunded", "primary", 3⟩], 0⟩ :=
  getAddress_stable_when_funded ⟨[⟨"bcrt1qfunded", "primary", 3⟩], 0⟩
    ⟨"bcrt1qfunded", "primary", 3⟩ rfl (by decide)

/-- Helper for C3, success case: if every hex in the list signs successfully,
the sequential loop succeeds with one output per input, in input order. -/
theorem signPsbts_ok_of_all_ok (wpp : String → Except String ProcessPsbtResult)
    (h2b b2h : String → String) (l : List String)
    (hall : ∀ hex ∈ l, ∃ s, signPsbt wpp h2b b2h hex = .ok s) :
    ∃ out : List String, signPsbts wpp h2b b2h l = .ok out ∧
      out.length = l.length ∧
      ∀ i : Fin l.length, ∀ hi : i.val < out.length,
        signPsbt wpp h2b b2h (l.get i) = .ok (out.get ⟨i.val, hi⟩) := by
  induction l with
  | nil => exact ⟨[], rfl, rfl, fun i _ => absurd i.isLt (Nat.not_lt_zero _)⟩
  | cons hd tl ih =>
    obtain ⟨s, hs⟩ := hall hd (List.mem_cons_self hd tl)
    obtain ⟨out, hout, hlen, hidx⟩ :=
      ih (fun hex hmem => hall hex (List.mem_cons_of_mem hd hmem))
    refine ⟨s :: out, ?_, by simpa using hlen, ?_⟩
    · simp only [signPsbts, hs, hout]
    · rintro ⟨i, hi⟩ hi'
      cases i with
      | zero => simpa using hs
      | succ j =>
        have hj : j < tl.length := Nat.lt_of_succ_lt_succ hi
        have hj' : j < out.length := by omega
        simpa using hidx ⟨j, hj⟩ hj'

/-- Helper for C3, failure case: if every hex before the failing one signs
successfully and the failing one yields an error, the whole loop propagates
that error, returning no list at all. -/
theorem signPsbts_error_propagates (wpp : String → Except String ProcessPsbtResult)
    (h2b b2h : String → String) (pre : List String) (x : String)
    (post : List String) (e : String)
    (hpre : ∀ hex ∈ pre, ∃ s, signPsbt wpp h2b b2h hex = .ok s)
    (herr : signPsbt wpp h2b b2h x = .error e) :
    signPsbts wpp h2b b2h (pre ++ x :: post) = .error e := by
  induction pre with
  | nil => simp only [List.nil_append, signPsbts, herr]
  | cons hd tl ih =>
    obtain ⟨s, hs⟩ := hpre hd (List.mem_cons_self hd tl)
    have hrec := ih (fun hex hmem => hpre hex (List.mem_cons_of_mem hd hmem))
    simp only [List.cons_append, signPsbts, hs, List.append_eq, hrec]

/-- C3: `signPsbts` is a strictly sequential loop: when every element signs
successfully it returns a list of the same length whose i-th entry is
`signPsbt` of the i-th input; when an element fails after a prefix of
successes, the error propagates and none of the earlier signed results are
returned. -/
theorem signPsbts_sequential_spec (wpp : String → Except String ProcessPsbtResult)
    (h2b b2h : String → String) :
    (∀ l : List String,
      (∀ hex ∈ l, ∃ s, signPsbt wpp h2b b2h hex = .ok s) →
      ∃ out : List String, signPsbts wpp h2b b2h l = .ok out ∧
        out.length = l.length ∧
        ∀ i : Fin l.length, ∀ hi : i.val < out.length,
          signPsbt wpp h2b b2h (l.get i) = .ok (out.get ⟨i.val, hi⟩)) ∧
    (∀ (pre : List String) (x : String) (post : List String) (e : String),
      (∀ hex ∈ pre, ∃ s, signPsbt wpp h2b b2h hex = .ok s) →
      signPsbt wpp h2b b2h x = .error e →
      signPsbts wpp h2b b2h (pre ++ x :: post) = .error e) :=
  ⟨signPsbts_ok_of_all_ok wpp h2b b2h,
   signPsbts_error_propagates wpp h2b b2h⟩

/-- Witness for C3: a node that signs everything, applied to two hexes, and a
node that rejects the base64 of "bb", applied to `["aa"] ++ "bb" :: ["cc"]`. -/
theorem signPsbts_sequential_spec_witness :
    (∃ out : List String,
      signPsbts (fun _ => .ok ⟨"QQ==", true⟩) id id ["aa", "bb"] = .ok out ∧
      out.length = (["aa", "bb"] : List String).length ∧
      ∀ i : Fin (["aa", "bb"] : List String).length, ∀ hi : i.val < out.length,
        signPsbt (fun _ => .ok ⟨"QQ==", true⟩) id id
            ((["aa", "bb"] : List String).get i) =
          .ok (out.get ⟨i.val, hi⟩)) ∧
    signPsbts
        (fun b64 => if b64 = "bb" then .error "rpc failure" else .ok ⟨"QQ==", true⟩)
        id id (["aa"] ++ "bb" :: ["cc"]) = .error "rpc failure" := by
  constructor
  · exact (signPsbts_sequential_spec (fun _ => .ok ⟨"QQ==", true⟩) id id).1
      ["aa", "bb"] (fun hex _ => ⟨"QQ==", rfl⟩)
  · refine (signPsbts_sequential_spec
      (fun b64 => if b64 = "bb" then .error "rpc failure" else .ok ⟨"QQ==", true⟩)
      id id).2 ["aa"] "bb" ["cc"] "rpc failure" ?_ rfl
    intro hex hmem
    have hx : hex = "aa" := by simpa using hmem
    subst hx
    exact ⟨"QQ==", rfl⟩

theorem sumValues_nil : sumValues [] = 0 := rfl

theorem sumValues_cons (u : UTXO) (l : List UTXO) :
    sumValues (u :: l) = u.value + sumValues l := by
  simp [sumValues]

theorem sumValues_append (l₁ l₂ : List UTXO) :
    sumValues (l₁ ++ l₂) = sumValues l₁ + sumValues l₂ := by
  simp [sumValues]

/-- With non-negative values, a prefix sums to at most the whole list. -/
theorem sumValues_take_le (l : List UTXO) (k : Nat)
    (h : ∀ u ∈ l, 0 ≤ u.value) :
    sumValues (l.take k) ≤ sumValues l := by
  conv_rhs => rw [← List.take_append_drop k l]
  rw [sumValues_append]
  have hdrop : 0 ≤ sumValues (l.drop k) := by
    apply List.sum_nonneg
    intro x hx
    simp only [List.mem_map] at hx
    obtain ⟨u, hu, rfl⟩ := hx
    exact h u (List.mem_of_mem_drop hu)
  linarith

/-- Helper for C1: if no non-empty prefix reaches the target, the loop runs to
the end, accumulating the whole list and the full sum. -/
theorem selectLoop_exhausts (amount : ℚ) (l : List UTXO) :
    ∀ (total : ℚ) (acc : List UTXO),
      (∀ k, k < l.length → total + sumValues (l.take (k + 1)) < amount) →
      selectLoop amount total acc l = (total + sumValues l, acc ++ l) := by
  induction l with
  | nil => intro total acc _; simp [selectLoop, sumValues]
  | cons u us ih =>
    intro total acc h
    have h0 : total + u.value < amount := by
      have h1 := h 0 (Nat.succ_pos _)
      simpa [sumValues] using h1
    simp only [selectLoop]
    rw [if_neg (not_le.mpr h0)]
    have hrec : ∀ k, k < us.length →
        total + u.value + sumValues (us.take (k + 1)) < amount := by
      intro k hk
      have h2 := h (k + 1) (by simpa using Nat.succ_lt_succ hk)
      rw [List.take_succ_cons, sumValues_cons] at h2
      linarith
    rw [ih (total + u.value) (acc ++ [u]) hrec, sumValues_cons]
    simp only [Prod.mk.injEq]
    exact ⟨by ring, by simp⟩

/-- Helper for C1: the loop stops exactly at the first non-empty prefix whose
running total reaches the target, returning that prefix and its sum. -/
theorem selectLoop_stops_at_first (amount : ℚ) (l : List UTXO) :
    ∀ (total : ℚ) (acc : List UTXO) (k : Nat), k < l.length →
      amount ≤ total + sumValues (l.take (k + 1)) →
      (∀ j, j < k → total + sumValues (l.take (j + 1)) < amount) →
      selectLoop amount total acc l =
        (total + sumValues (l.take (k + 1)), acc ++ l.take (k + 1)) := by
  induction l with
  | nil => intro total acc k hk; exact absurd hk (Nat.not_lt_zero _)
  | cons u us ih =>
    intro total acc k hk hge hmin
    cases k with
    | zero =>
      have h0 : amount ≤ total + u.value := by
        simpa [sumValues] using hge
      simp only [selectLoop]
      rw [if_pos h0]
      simp [sumValues]
    | succ k' =>
      have h0 : total + u.value < amount := by
        have h1 := hmin 0 (Nat.succ_pos _)
        simpa [sumValues] using h1
      have hge' : amount ≤ total + u.value + sumValues (us.take (k' + 1)) := by
        rw [List.take_succ_cons, sumValues_cons] at hge
        linarith
      have hmin' : ∀ j, j < k' →
          total + u.value + sumValues (us.take (j + 1)) < amount := by
        intro j hj
        have h2 := hmin (j + 1) (Nat.succ_lt_succ hj)
        rw [List.take_succ_cons, sumValues_cons] at h2
        linarith
      simp only [selectLoop]
      rw [if_neg (not_le.mpr h0)]
      rw [ih (total + u.value) (acc ++ [u]) k'
        (Nat.lt_of_succ_lt_succ hk) hge' hmin']
      rw [List.take_succ_cons, sumValues_cons]
      simp only [Prod.mk.injEq]
      exact ⟨by ring, by simp⟩

/-- Unfolding of `getUtxos` on a present, non-zero amount: the truthy branch
runs the accumulation loop over the full converted list and keeps its result
only when the final total reaches the amount. -/
theorem getUtxos_some_eq (listUnspent : Nat → Nat → String → List RawUtxo)
    (address : String) (a : ℚ) (ha : a ≠ 0) :
    getUtxos listUnspent address (some a) =
      if a ≤ (selectLoop a 0 [] (fullUtxoList listUnspent address)).1
      then (selectLoop a 0 [] (fullUtxoList listUnspent address)).2
      else [] := by
  simp only [getUtxos, fullUtxoList]
  rw [if_neg ha]

/-- Helper for C1 over an arbitrary converted list: the loop-plus-final-check
of `getUtxos` yields the shortest prefix reaching the target when one exists,
and the empty list when even the full sum falls short. -/
theorem selectLoop_shortest (amount : ℚ) (l : List UTXO) (hpos : 0 < amount)
    (hvals : ∀ v ∈ l, 0 ≤ v.value) :
    ((∃ k, k ≤ l.length ∧ amount ≤ sumValues (l.take k)) →
      ∃ k,
        (if amount ≤ (selectLoop amount 0 [] l).1
         then (selectLoop amount 0 [] l).2 else []) = l.take k ∧
        amount ≤ sumValues (l.take k) ∧
        ∀ j, j < k → sumValues (l.take j) < amount) ∧
    (sumValues l < amount →
      (if amount ≤ (selectLoop amount 0 [] l).1
       then (selectLoop amount 0 [] l).2 else []) = []) := by
  constructor
  · rintro ⟨k, hkle, hkge⟩
    have hexn : ∃ n, amount ≤ sumValues (l.take n) := ⟨k, hkge⟩
    have hspec : amount ≤ sumValues (l.take (Nat.find hexn)) :=
      Nat.find_spec hexn
    have hmin : ∀ j, j < Nat.find hexn → sumValues (l.take j) < amount :=
      fun j hj => not_le.mp (Nat.find_min hexn hj)
    have hk₀pos : 0 < Nat.find hexn := by
      rcases Nat.eq_zero_or_pos (Nat.find hexn) with h0 | h
      · exfalso
        rw [h0] at hspec
        simp only [List.take_zero, sumValues_nil] at hspec
        linarith
      · exact h
    have hk₀le : Nat.find hexn ≤ k := Nat.find_min' hexn hkge
    have hk₀len : Nat.find hexn - 1 < l.length := by omega
    have hstep : Nat.find hexn - 1 + 1 = Nat.find hexn := by omega
    have hge' : amount ≤ 0 + sumValues (l.take (Nat.find hexn - 1 + 1)) := by
      rw [hstep, zero_add]
      exact hspec
    have hmin' : ∀ j, j < Nat.find hexn - 1 →
        (0 : ℚ) + sumValues (l.take (j + 1)) < amount := by
      intro j hj
      rw [zero_add]
      exact hmin (j + 1) (by omega)
    have hloop :=
      selectLoop_stops_at_first amount l 0 [] (Nat.find hexn - 1) hk₀len hge' hmin'
    rw [hstep] at hloop
    refine ⟨Nat.find hexn, ?_, hspec, hmin⟩
    rw [hloop]
    have hcond : amount ≤
        ((0 + sumValues (l.take (Nat.find hexn)),
          ([] : List UTXO) ++ l.take (Nat.find hexn))).1 := by
      simpa using hspec
    rw [if_pos hcond]
    simp
  · intro hfull
    have hall : ∀ n, n < l.length →
        (0 : ℚ) + sumValues (l.take (n + 1)) < amount := by
      intro n _
      rw [zero_add]
      calc sumValues (l.take (n + 1)) ≤ sumValues l :=
            sumValues_take_le l (n + 1) hvals
        _ < amount := hfull
    rw [selectLoop_exhausts amount l 0 [] hall]
    have hcond : ¬ amount ≤
        ((0 + sumValues l, ([] : List UTXO) ++ l)).1 := by
      simp only [zero_add]
      exact not_le.mpr hfull
    rw [if_neg hcond]

/-- C1: for a positive target amount, and the non-negative coin amounts the
backend lists, `getUtxos(address, amount)` returns the shortest prefix (in
backend listing order) of the full converted list whose cumulative
`valueSatoshis` reaches the amount whenever some prefix does, and returns the
empty sequence when even the full list's cumulative value is below the
target. -/
theorem getUtxos_amount_shortest
    (listUnspent : Nat → Nat → String → List RawUtxo) (address : String)
    (amount : ℚ) (hpos : 0 < amount)
    (hnn : ∀ u ∈ listUnspent 0 9999999 address, 0 ≤ u.amount) :
    ((∃ k, k ≤ (fullUtxoList listUnspent address).length ∧
        amount ≤ sumValues ((fullUtxoList listUnspent address).take k)) →
      ∃ k, getUtxos listUnspent address (some amount) =
          (fullUtxoList listUnspent address).take k ∧
        amount ≤ sumValues ((fullUtxoList listUnspent address).take k) ∧
        ∀ j, j < k →
          sumValues ((fullUtxoList listUnspent address).take j) < amount) ∧
    (sumValues (fullUtxoList listUnspent address) < amount →
      getUtxos listUnspent address (some amount) = []) := by
  have hvals : ∀ v ∈ fullUtxoList listUnspent address, 0 ≤ v.value := by
    intro v hv
    simp only [fullUtxoList, List.mem_map] at hv
    obtain ⟨u, hu, rfl⟩ := hv
    exact mul_nonneg (hnn u hu) (by norm_num)
  rw [getUtxos_some_eq listUnspent address amount (ne_of_gt hpos)]
  exact selectLoop_shortest amount (fullUtxoList listUnspent address) hpos hvals

/-- A concrete backend for C1's witness: three unspent outputs worth 500, 300
and 200 satoshis (the spec's worked example). -/
def c1Backend : Nat → Nat → String → List RawUtxo := fun _ _ _ =>
  [⟨"tx1", 0, 500 / 100000000, "spk1"⟩,
   ⟨"tx2", 1, 300 / 100000000, "spk2"⟩,
   ⟨"tx3", 0, 200 / 100000000, "spk3"⟩]

/-- Witness for C1: the shortest-prefix behaviour instantiated on the
500/300/200 backend with target 700. -/
theorem getUtxos_amount_shortest_witness :
    ((∃ k, k ≤ (fullUtxoList c1Backend "addr").length ∧
        (700 : ℚ) ≤ sumValues ((fullUtxoList c1Backend "addr").take k)) →
      ∃ k, getUtxos c1Backend "addr" (some 700) =
          (fullUtxoList c1Backend "addr").take k ∧
        (700 : ℚ) ≤ sumValues ((fullUtxoList c1Backend "addr").take k) ∧
        ∀ j, j < k →
          sumValues ((fullUtxoList c1Backend "addr").take j) < 700) ∧
    (sumValues (fullUtxoList c1Backend "addr") < 700 →
      getUtxos c1Backend "addr" (some 700) = []) :=
  getUtxos_amount_shortest c1Backend "addr" 700 (by norm_num)
    (by
      intro u hu
      simp only [c1Backend] at hu
      fin_cases hu <;> norm_num)

end WalletProviderTs
